import Mathlib

/-!
Verification of the redaction pipeline of `redactly-vue-nexus`.

The development shallowly embeds the core pipeline:
* `src/src/services/documentService.ts` — `extractEntities` (regex-based
  baseline detector for EMAIL / PHONE / URL spans) and the PDF page loop of
  `processPDF` / `processDocument`;
* `src/src/services/aiService.ts` — `detectSensitiveData` (filter, score,
  promote entities to redaction items) and `applyMockRedactions`
  (block-character stamping);
* `src/src/pages/Index.tsx` — the review-state handlers
  (`handleAddAnnotation`, `handleApproveRedaction`, `handleRejectRedaction`).

Strings are embedded as `List Char` (JS strings are indexed sequences of
UTF-16 units; all inputs considered here are within the BMP, where the two
views agree).  JS numbers are embedded as `ℚ` for confidences and
sensitivity, and as `Int` for the start/end indices carried by redaction
items (the code's loops are index arithmetic on them).  The three regular
expressions of `extractEntities` are embedded as explicit backtracking
matchers with JS semantics (leftmost match, greedy quantifiers with
backtracking, `g`-flag scan resuming at the end of each match).
-/

namespace Redactly

/-- A baseline entity produced by `DocumentService.extractEntities`
(`documentService.ts` lines 24-35): matched text, family type, half-open
character offsets and the fixed confidence 0.95. -/
structure Entity where
  text : List Char
  type : String
  start : Nat
  end_ : Nat
  confidence : ℚ
deriving DecidableEq, Repr

/-- The part of `ProcessedDocument` (`documentService.ts` lines 11-36) that
the detection pipeline reads: the extracted text and the baseline entities.
(The `metadata` field is not consumed by `detectSensitiveData`.) -/
structure ProcessedDocument where
  text : List Char
  entities : List Entity
deriving DecidableEq, Repr

/-- Embeds `AIDetectionOptions` (`aiService.ts` lines 24-30). -/
structure AIDetectionOptions where
  sensitivityLevel : ℚ
  redactPII : Bool
  redactFinancial : Bool
  redactDates : Bool
deriving DecidableEq, Repr

/-- Embeds `RedactionItem` (`aiService.ts` lines 4-13).  `start`/`end` are JS
numbers used in index arithmetic, embedded as `Int`. -/
structure RedactionItem where
  id : String
  text : List Char
  type : String
  confidence : ℚ
  start : Int
  end_ : Int
  needsReview : Bool
deriving DecidableEq, Repr

/-- Embeds `RedactionResult` (`aiService.ts` lines 16-21). -/
structure RedactionResult where
  redactions : List RedactionItem
  redactedText : List Char
deriving DecidableEq, Repr

/-! ## The redaction applier (`applyMockRedactions`, `aiService.ts` 111-121) -/

/-- One execution of the loop body `if (i < result.length) result[i] = '█'`.
For `0 ≤ i < length` the cell is overwritten; for `i ≥ length` the guard
skips the write; for negative `i` the JS write creates a string-keyed
property that `join('')` ignores, so the observable string is unchanged —
`List.set` (a no-op out of range) is the exact denotation. -/
def setBlock (cs : List Char) (i : Int) : List Char :=
  if 0 ≤ i then cs.set i.toNat '█' else cs

/-- Body iterations of the inner loop
`for (let i = redaction.start; i < redaction.end; i++)`: run the write at
`s`, `s + 1`, ... for the given number of iterations.  (Structural
recursion on the iteration count, which the wrapper below fixes to the
loop's exact trip count.) -/
def redactRangeGo (cs : List Char) (s : Int) : Nat → List Char
  | 0 => cs
  | fuel + 1 => redactRangeGo (setBlock cs s) (s + 1) fuel

/-- The inner loop `for (let i = redaction.start; i < redaction.end; i++)`,
which executes its body exactly `(end - start).toNat` times. -/
def redactRange (cs : List Char) (s e : Int) : List Char :=
  redactRangeGo cs s (e - s).toNat

/-- Embeds `applyMockRedactions` (`aiService.ts` lines 111-121): stamp every
redaction's `[start, end)` range onto the character array. -/
def applyMockRedactions (text : List Char) (redactions : List RedactionItem) : List Char :=
  redactions.foldl (fun result r => redactRange result r.start r.end_) text

/-! ## The filter and scorer (`detectSensitiveData`, `aiService.ts` 63-108) -/

/-- The effective confidence threshold
`0.5 + (sensitivityLevel - 50) / 100` (`aiService.ts` line 77). -/
def confidenceThreshold (sensitivityLevel : ℚ) : ℚ :=
  0.5 + (sensitivityLevel - 50) / 100

/-- The filter callback of `detectSensitiveData` (`aiService.ts` 75-85). -/
def entityFilter (options : AIDetectionOptions) (entity : Entity) : Bool :=
  if entity.confidence < confidenceThreshold options.sensitivityLevel then false
  else if entity.type == "EMAIL" && options.redactPII then true
  else if entity.type == "PHONE" && options.redactPII then true
  else false

/-- JS `Array.prototype.map` with the element index, as used by the
`.map((entity, index) => ...)` call at `aiService.ts` line 86. -/
def mapWithIndex (f : Nat → α → β) : Nat → List α → List β
  | _, [] => []
  | i, a :: as => f i a :: mapWithIndex f (i + 1) as

/-- The promotion of a surviving entity to a `RedactionItem`
(`aiService.ts` lines 86-94): id `mock-<index>-<start>`, confidence scaled
by 100, `needsReview` when the raw confidence is below 0.8. -/
def promoteEntity (index : Nat) (entity : Entity) : RedactionItem :=
  { id := "mock-" ++ toString index ++ "-" ++ toString entity.start
    text := entity.text
    type := entity.type
    confidence := entity.confidence * 100
    start := (entity.start : Int)
    end_ := (entity.end_ : Int)
    needsReview := decide (entity.confidence < 0.8) }

/-- Embeds `detectSensitiveData` (`aiService.ts` lines 63-108): filter the
pre-extracted entities, promote the survivors in order, and stamp the
redacted text.  (The awaited 500 ms delay and the console logging have no
bearing on the returned value.) -/
def detectSensitiveData (document : ProcessedDocument) (options : AIDetectionOptions) :
    RedactionResult :=
  let mockRedactions :=
    mapWithIndex promoteEntity 0 (document.entities.filter (entityFilter options))
  { redactions := mockRedactions
    redactedText := applyMockRedactions document.text mockRedactions }

/-! ## The baseline detector (`extractEntities`, `documentService.ts` 158-177)

The three regular expressions
  email `[a-zA-Z0-9._%+-]+@[a-zA-Z0-9.-]+\.[a-zA-Z]{2,}`
  phone `(\+\d{1,3}[-.]?)?\(?\d{3}\)?[-.]?\d{3}[-.]?\d{4}`
  url   `(https?:\/\/[^\s]+)`
are embedded as backtracking matchers over the suffix of the text at the
current scan position, returning the length of the (greedy, leftmost)
match when one starts exactly there. -/

/-- Character class `[a-zA-Z0-9._%+-]` (email local part). -/
def isEmailLocalChar (c : Char) : Bool :=
  c.isAlpha || c.isDigit || c == '.' || c == '_' || c == '%' || c == '+' || c == '-'

/-- Character class `[a-zA-Z0-9.-]` (email domain part). -/
def isEmailDomainChar (c : Char) : Bool :=
  c.isAlpha || c.isDigit || c == '.' || c == '-'

/-- Character class `[-.]` (phone separators). -/
def isSepChar (c : Char) : Bool :=
  c == '-' || c == '.'

/-- Length of the maximal run of characters satisfying `p` at the front. -/
def runLen (p : Char → Bool) (cs : List Char) : Nat :=
  (cs.takeWhile p).length

/-- Backtracking search for `\.[a-zA-Z]{2,}` inside the maximal domain run.
After `@`, the greedy `[a-zA-Z0-9.-]+` consumes `q` characters and then the
literal dot must follow; since `.` and letters are themselves domain
characters, every viable `q` is below the maximal-run length, so the search
tries `q` descending (greedy) and accepts the first `q ≥ 1` whose following
character is `.` with at least two letters after it.  Returns the length
consumed from the suffix after `@` (domain + dot + letters). -/
def emailDomGo (rest : List Char) : Nat → Option Nat
  | 0 => none
  | j + 1 =>
    let t := runLen Char.isAlpha (rest.drop (j + 2))
    if rest.getD (j + 1) ' ' == '.' && 2 ≤ t then some (j + 2 + t)
    else emailDomGo rest j

/-- Match of the email regex at the start of `cs`: the maximal local-part
run (no shorter run can be followed by `@`, as `@` is not a local-part
character), the literal `@`, then the domain/dot/letters search. -/
def emailMatchAt (cs : List Char) : Option Nat :=
  let k := runLen isEmailLocalChar cs
  if k == 0 then none
  else
    match cs.drop k with
    | '@' :: rest =>
      match emailDomGo rest (runLen isEmailDomainChar rest - 1) with
      | some d => some (k + 1 + d)
      | none => none
    | _ => none

/-- Consume exactly `n` digits (`\d{n}`), returning the remaining suffix. -/
def dropDigits (n : Nat) (cs : List Char) : Option (List Char) :=
  match n, cs with
  | 0, cs => some cs
  | n + 1, c :: rest => if c.isDigit then dropDigits n rest else none
  | _ + 1, [] => none

/-- Greedy optional single character `X?`: try consuming a `p`-character
first and fall back to the empty alternative when the continuation `k`
fails — the exact backtracking order of the regex engine. -/
def optC (p : Char → Bool) (cs : List Char) (k : List Char → Option Nat) : Option Nat :=
  match cs with
  | c :: rest =>
    if p c then
      match k rest with
      | some n => some (n + 1)
      | none => k (c :: rest)
    else k (c :: rest)
  | [] => k []

/-- Phone suffix `[-.]?\d{4}`. -/
def phoneLast (cs : List Char) : Option Nat :=
  optC isSepChar cs (fun cs2 => (dropDigits 4 cs2).map (fun _ => 4))

/-- Phone suffix `[-.]?\d{3}[-.]?\d{4}`. -/
def phoneMid (cs : List Char) : Option Nat :=
  optC isSepChar cs (fun cs2 =>
    match dropDigits 3 cs2 with
    | some cs3 => (phoneLast cs3).map (fun n => n + 3)
    | none => none)

/-- Phone core `\(?\d{3}\)?[-.]?\d{3}[-.]?\d{4}`. -/
def phoneMain (cs : List Char) : Option Nat :=
  optC (fun c => c == '(') cs (fun cs1 =>
    match dropDigits 3 cs1 with
    | some cs2 => (optC (fun c => c == ')') cs2 phoneMid).map (fun n => n + 3)
    | none => none)

/-- After a leading `+`: one alternative of `\d{1,3}[-.]?` followed by the
phone core, with the digit count `q` fixed. -/
def phonePlusDigits (r : List Char) (q : Nat) : Option Nat :=
  match dropDigits q r with
  | some rq => (optC isSepChar rq phoneMain).map (fun n => n + q)
  | none => none

/-- Match of the phone regex at the start of `cs`.  The optional group
`(\+\d{1,3}[-.]?)?` is greedy: with a leading `+` the digit counts 3, 2, 1
are tried in order; if all fail, the group is skipped (and the `+` must
then be matched by the core, which it cannot be). -/
def phoneMatchAt (cs : List Char) : Option Nat :=
  match cs with
  | '+' :: r =>
    match phonePlusDigits r 3 with
    | some n => some (n + 1)
    | none =>
      match phonePlusDigits r 2 with
      | some n => some (n + 1)
      | none =>
        match phonePlusDigits r 1 with
        | some n => some (n + 1)
        | none => phoneMain cs
  | _ => phoneMain cs

/-- URL suffix after the scheme name: literal `://`, then a non-empty
maximal run of non-whitespace characters (`[^\s]+`, greedy with nothing
after it; whitespace is taken here as ASCII whitespace). -/
def urlTail (cs2 : List Char) : Option Nat :=
  match cs2 with
  | ':' :: '/' :: '/' :: cs3 =>
    let t := runLen (fun c => !c.isWhitespace) cs3
    if t == 0 then none else some (3 + t)
  | _ => none

/-- Match of the URL regex at the start of `cs`: literal `http`, greedy
optional `s`, then the `://`-and-run tail. -/
def urlMatchAt (cs : List Char) : Option Nat :=
  match cs with
  | 'h' :: 't' :: 't' :: 'p' :: rest =>
    match optC (fun c => c == 's') rest urlTail with
    | some n => some (n + 4)
    | none => none
  | _ => none

/-- The `g`-flag `exec` loop: starting at absolute index `i` with suffix
`cs`, emit `(index, length)` for the leftmost match and resume at its end,
otherwise advance one position.  All three matchers only return positive
lengths (proved below), so `max n 1 = n` on every emitted match.  The loop
is structurally recursive on a fuel argument; every iteration consumes at
least one character of the suffix, so any fuel of at least `cs.length`
(the wrapper passes exactly that) makes the fueled loop coincide with the
unbounded JS loop — `scanGo_fuel` below proves the fuel-independence. -/
def scanGo (m : List Char → Option Nat) : Nat → List Char → Nat → List (Nat × Nat)
  | 0, _, _ => []
  | _ + 1, [], _ => []
  | fuel + 1, c :: rest, i =>
    match m (c :: rest) with
    | some n => (i, n) :: scanGo m fuel ((c :: rest).drop (max n 1)) (i + max n 1)
    | none => scanGo m fuel rest (i + 1)

/-- One full scan of the text with a matcher, from index 0. -/
def scanMatches (m : List Char → Option Nat) (text : List Char) : List (Nat × Nat) :=
  scanGo m text.length text 0

/-- Build the entity for a match: the matched text is the engine's
`match[0]`, i.e. the `n`-character slice of `text` at `i`; the fixed
confidence is 0.95 (`documentService.ts` lines 166-174). -/
def entityOfMatch (text : List Char) (ty : String) (p : Nat × Nat) : Entity :=
  { text := (text.drop p.1).take p.2
    type := ty
    start := p.1
    end_ := p.1 + p.2
    confidence := 0.95 }

/-- The email pass of `extractEntities` (`documentService.ts` 166-168). -/
def emailEntities (text : List Char) : List Entity :=
  (scanMatches emailMatchAt text).map (entityOfMatch text "EMAIL")

/-- The phone pass of `extractEntities` (`documentService.ts` 169-171). -/
def phoneEntities (text : List Char) : List Entity :=
  (scanMatches phoneMatchAt text).map (entityOfMatch text "PHONE")

/-- The URL pass of `extractEntities` (`documentService.ts` 172-174). -/
def urlEntities (text : List Char) : List Entity :=
  (scanMatches urlMatchAt text).map (entityOfMatch text "URL")

/-- Embeds `extractEntities` (`documentService.ts` lines 158-177): the three
passes run independently over the whole text, emails first, then phones,
then URLs, each pass pushing its matches into the single `entities` array
in scan order. -/
def extractEntities (text : List Char) : List Entity :=
  emailEntities text ++ phoneEntities text ++ urlEntities text

/-- The entity-bearing part of `processDocument` (`documentService.ts`
lines 104-112) for an already-extracted text: package the text with its
baseline entities. -/
def documentOf (text : List Char) : ProcessedDocument :=
  { text := text, entities := extractEntities text }

/-! ## The PDF page loop (`processPDF` / `processDocument`,
`documentService.ts` 70-140)

The asynchronous pdf.js calls are abstracted to their outcomes: a whole
document either fails to load (`getDocument` rejects — the catch at
`processDocument` line 86 turns this into "Failed to process PDF file.")
or yields one outcome per page, where a page is either a list of item
strings or a failure (the per-page catch at line 134 swallows it). -/

/-- Outcome of loading a PDF: whole-document failure, or per-page outcomes
(`some items` = the page's text items, `none` = that page's extraction
threw and was caught). -/
inductive PDFLoad where
  | failed : PDFLoad
  | loaded : List (Option (List (List Char))) → PDFLoad

/-- One iteration of the page loop (`documentService.ts` 129-137): a
successful page appends its items joined by spaces plus a newline; a
failing page is caught and appends nothing. -/
def pageContribution : Option (List (List Char)) → List Char
  | some items => List.intercalate [' '] items ++ ['\n']
  | none => []

/-- The page loop's accumulated text (`text +=` over pages in order). -/
def pdfPagesText (pages : List (Option (List (List Char)))) : List Char :=
  pages.foldl (fun acc p => acc ++ pageContribution p) []

/-- JS `String.prototype.trim` on the character list. -/
def listTrim (cs : List Char) : List Char :=
  ((cs.dropWhile Char.isWhitespace).reverse.dropWhile Char.isWhitespace).reverse

/-- Embeds `processPDF` (`documentService.ts` 120-140): text (trimmed) and page
count on a loaded document; propagated failure when the document cannot
load at all. -/
def processPDFModel : PDFLoad → Except String (List Char × Nat)
  | .failed => .error "Failed to process PDF file."
  | .loaded pages => .ok (listTrim (pdfPagesText pages), pages.length)

/-- The PDF branch of `processDocument` (`documentService.ts` 81-112):
run `processPDF`, then extract the baseline entities from the text. -/
def processDocumentPDF (load : PDFLoad) : Except String ProcessedDocument :=
  match processPDFModel load with
  | .error e => .error e
  | .ok (text, _) => .ok (documentOf text)

/-! ## The review-state handlers (`Index.tsx` 95-126) -/

/-- Review decision of a candidate (spec section 4.5). -/
inductive Decision where
  | pending
  | approved
  | rejected
deriving DecidableEq, Repr

/-- A candidate's owned review metadata: its append-only annotation list
and its decision. -/
structure ReviewCandidate where
  annotations : List String
  decision : Decision
deriving DecidableEq, Repr

/-- The `redactions` record of `Index.tsx`, keyed by candidate id. -/
def ReviewState : Type :=
  String → Option ReviewCandidate

/-- Embeds `handleAddAnnotation` (`Index.tsx` 113-126), whose `annotation`
parameter is here named `note`: spread the record,
replacing the entry at `id` with its annotation list extended at the end
(`[...(prev[id].annotations || []), annotation]`). -/
def handleAddAnnotation (st : ReviewState) (id : String) (note : String) : ReviewState :=
  fun k =>
    if k == id then (st k).map (fun c => { c with annotations := c.annotations ++ [note] })
    else st k

/-- Embeds `handleApproveRedaction` (`Index.tsx` 95-102) as implemented: it
raises a toast and leaves the redactions record untouched — per its own
comment the decision update happens in a backend that is not part of this
repository. -/
def handleApproveRedaction (st : ReviewState) (_id : String) : ReviewState :=
  st

/-- Embeds `handleRejectRedaction` (`Index.tsx` 104-111) as implemented: toast
only, redactions record untouched. -/
def handleRejectRedaction (st : ReviewState) (_id : String) : ReviewState :=
  st

/-- Modelled from the spec: the Review State Tracker's `approve(id)`
(spec section 4.5).  The decision-updating code is missing from the
repository (`handleApproveRedaction` defers it to a backend), so it is
modelled from the spec's words: set the candidate's `decision` to
`approved` and do not alter `annotations`. -/
def approveCandidate (st : ReviewState) (id : String) : ReviewState :=
  fun k =>
    if k == id then (st k).map (fun c => { c with decision := Decision.approved })
    else st k

/-- Modelled from the spec: the Review State Tracker's `reject(id)`
(spec section 4.5), missing from the repository for the same reason as
`approve(id)`: set `decision` to `rejected`, do not alter `annotations`. -/
def rejectCandidate (st : ReviewState) (id : String) : ReviewState :=
  fun k =>
    if k == id then (st k).map (fun c => { c with decision := Decision.rejected })
    else st k

/-! ## Concrete inputs used by witnesses and counterexamples -/

/-- Scenario A text from the spec. -/
def scenarioAText : List Char :=
  "Contact me at a@b.com or 555-123-4567.".data

/-- Options with all categories enabled and sensitivity 50. -/
def defaultOptions : AIDetectionOptions :=
  { sensitivityLevel := 50, redactPII := true, redactFinancial := true, redactDates := true }

/-- Options with all categories enabled and sensitivity 100. -/
def maxOptions : AIDetectionOptions :=
  { sensitivityLevel := 100, redactPII := true, redactFinancial := true, redactDates := true }

/-- A text containing a single email. -/
def emailOnlyText : List Char :=
  "a@b.com".data

/-- A text in which a phone number precedes an email. -/
def phoneFirstText : List Char :=
  "555-123-4567 a@b.com".data

/-- A text containing a single URL. -/
def urlOnlyText : List Char :=
  "visit http://ab.cd now".data

/-- Two overlapping in-range redaction items over a five-character text. -/
def c3Items : List RedactionItem :=
  [ { id := "a", text := ['b', 'c'], type := "EMAIL", confidence := 95, start := 1, end_ := 3,
      needsReview := false },
    { id := "b", text := ['c', 'd'], type := "PHONE", confidence := 95, start := 2, end_ := 4,
      needsReview := false } ]

/-- A one-candidate review state. -/
def c6State : ReviewState :=
  fun k => if k == "c1" then some { annotations := ["first"], decision := Decision.pending }
           else none

/-- Sortedness of a redaction list by ascending start with ties broken by
ascending end, as asserted by the spec for the candidate list. -/
def sortedByStartThenEnd (rs : List RedactionItem) : Prop :=
  List.Pairwise (fun a b => a.start < b.start ∨ (a.start = b.start ∧ a.end_ ≤ b.end_)) rs

/-! ## Length preservation of the applier -/

/-- Writing one block character never changes the length. -/
theorem setBlock_length (cs : List Char) (i : Int) : (setBlock cs i).length = cs.length := by
  unfold setBlock
  split <;> simp

/-- Loop iterations never change the length. -/
theorem redactRangeGo_length :
    ∀ (fuel : Nat) (cs : List Char) (s : Int), (redactRangeGo cs s fuel).length = cs.length := by
  intro fuel
  induction fuel with
  | zero => intro cs s; rfl
  | succ fuel ih =>
    intro cs s
    show (redactRangeGo (setBlock cs s) (s + 1) fuel).length = _
    rw [ih, setBlock_length]

/-- Stamping one range never changes the length. -/
theorem redactRange_length (cs : List Char) (s e : Int) :
    (redactRange cs s e).length = cs.length :=
  redactRangeGo_length (e - s).toNat cs s

/-- Applying any redaction list preserves the text length. -/
theorem applyMockRedactions_length (text : List Char) (rs : List RedactionItem) :
    (applyMockRedactions text rs).length = text.length := by
  induction rs generalizing text with
  | nil => rfl
  | cons r rs ih =>
    show (applyMockRedactions (redactRange text r.start r.end_) rs).length = _
    rw [ih, redactRange_length]

/-! ## Pointwise behaviour of the applier -/

/-- Pointwise effect of one block write. -/
theorem setBlock_getD (cs : List Char) (j : Int) (i : Nat) (d : Char) (hi : i < cs.length) :
    (setBlock cs j).getD i d = if (i : Int) = j then '█' else cs.getD i d := by
  unfold setBlock
  split
  · rename_i h0
    rw [List.getD_eq_getElem?_getD, List.getElem?_set, List.getD_eq_getElem?_getD]
    by_cases hji : j.toNat = i
    · have hj : (i : Int) = j := by omega
      simp [hji, hj, hi]
    · have hj : ¬ (i : Int) = j := by omega
      simp [hji, hj]
  · rename_i h0
    have hj : ¬ (i : Int) = j := by omega
    rw [if_neg hj]

/-- Pointwise effect of the loop iterations. -/
theorem redactRangeGo_getD :
    ∀ (fuel : Nat) (cs : List Char) (s : Int) (i : Nat) (d : Char), i < cs.length →
      (redactRangeGo cs s fuel).getD i d =
        if s ≤ (i : Int) ∧ (i : Int) < s + fuel then '█' else cs.getD i d := by
  intro fuel
  induction fuel with
  | zero =>
    intro cs s i d hi
    rw [if_neg (by omega)]
    rfl
  | succ fuel ih =>
    intro cs s i d hi
    show (redactRangeGo (setBlock cs s) (s + 1) fuel).getD i d = _
    rw [ih (setBlock cs s) (s + 1) i d (by rw [setBlock_length]; exact hi)]
    rw [setBlock_getD cs s i d hi]
    by_cases hcov : s ≤ (i : Int) ∧ (i : Int) < s + (fuel + 1 : Nat)
    · rw [if_pos hcov]
      by_cases hs1 : s + 1 ≤ (i : Int)
      · rw [if_pos ⟨hs1, by push_cast at hcov; omega⟩]
      · have h2 : (i : Int) = s := by omega
        rw [if_neg (by omega), if_pos h2]
    · have h1 : ¬ (s + 1 ≤ (i : Int) ∧ (i : Int) < s + 1 + fuel) := by
        push_cast at hcov
        omega
      have h2 : ¬ (i : Int) = s := by omega
      rw [if_neg hcov, if_neg h1, if_neg h2]

/-- Pointwise effect of stamping one range. -/
theorem redactRange_getD (cs : List Char) (s e : Int) (i : Nat) (d : Char) (hi : i < cs.length) :
    (redactRange cs s e).getD i d =
      if s ≤ (i : Int) ∧ (i : Int) < e then '█' else cs.getD i d := by
  rw [redactRange, redactRangeGo_getD (e - s).toNat cs s i d hi]
  by_cases hcov : s ≤ (i : Int) ∧ (i : Int) < e
  · rw [if_pos hcov, if_pos (by omega)]
  · rw [if_neg hcov, if_neg (by omega)]

/-- Pointwise effect of applying a whole redaction list: a position inside
the text becomes a block character exactly when some redaction covers it,
and is untouched otherwise. -/
theorem applyMockRedactions_getD (rs : List RedactionItem) :
    ∀ (text : List Char) (i : Nat) (d : Char), i < text.length →
      (applyMockRedactions text rs).getD i d =
        if rs.any (fun r => decide (r.start ≤ (i : Int) ∧ (i : Int) < r.end_)) then '█'
        else text.getD i d := by
  induction rs with
  | nil =>
    intro text i d hi
    simp [applyMockRedactions]
  | cons r rs ih =>
    intro text i d hi
    show (applyMockRedactions (redactRange text r.start r.end_) rs).getD i d = _
    rw [ih _ i d (by rw [redactRange_length]; exact hi)]
    rw [redactRange_getD text r.start r.end_ i d hi]
    by_cases hrs : ∃ x ∈ rs, x.start ≤ (i : Int) ∧ (i : Int) < x.end_
    · simp [List.any_cons, List.any_eq_true, hrs]
    · by_cases hr : r.start ≤ (i : Int) ∧ (i : Int) < r.end_
      · simp [List.any_cons, List.any_eq_true, hrs, hr]
      · simp [List.any_cons, List.any_eq_true, hrs, hr]

/-- C9: for every text and every candidate list, including candidates whose
start or end fall outside the valid index range, applying redactions is
total (the Lean embedding is a function) and returns a string of exactly
the input's length: out-of-range positions are silently ignored. -/
theorem applyMockRedactions_total_length (text : List Char) (redactions : List RedactionItem) :
    (applyMockRedactions text redactions).length = text.length :=
  applyMockRedactions_length text redactions

/-- C3: for candidates with in-range offsets, the redacted text keeps the
input's length, every position inside any candidate's range (overlaps
included) holds a block character, and every position covered by no
candidate is unchanged. -/
theorem applyMockRedactions_roundTrip (text : List Char) (rs : List RedactionItem)
    (hb : ∀ r ∈ rs, 0 ≤ r.start ∧ r.start < r.end_ ∧ r.end_ ≤ (text.length : Int)) :
    (applyMockRedactions text rs).length = text.length
    ∧ (∀ r ∈ rs, ∀ i : Nat, r.start ≤ (i : Int) → (i : Int) < r.end_ →
        (applyMockRedactions text rs).getD i ' ' = '█')
    ∧ (∀ i : Nat, i < text.length →
        (∀ r ∈ rs, ¬ (r.start ≤ (i : Int) ∧ (i : Int) < r.end_)) →
        (applyMockRedactions text rs).getD i ' ' = text.getD i ' ') := by
  refine ⟨applyMockRedactions_length text rs, ?_, ?_⟩
  · intro r hr i h1 h2
    have hi : i < text.length := by
      have := hb r hr
      omega
    rw [applyMockRedactions_getD rs text i ' ' hi, if_pos]
    simp only [List.any_eq_true, decide_eq_true_eq]
    exact ⟨r, hr, h1, h2⟩
  · intro i hi hnone
    rw [applyMockRedactions_getD rs text i ' ' hi, if_neg]
    simp only [List.any_eq_true, decide_eq_true_eq, not_exists, not_and]
    intro r hr h1 h2
    exact hnone r hr ⟨h1, h2⟩

/-- Witness for C3 on a concrete text and overlapping candidate ranges. -/
theorem applyMockRedactions_roundTrip_witness :
    (applyMockRedactions "abcde".data c3Items).length = "abcde".data.length
    ∧ (∀ r ∈ c3Items, ∀ i : Nat, r.start ≤ (i : Int) → (i : Int) < r.end_ →
        (applyMockRedactions "abcde".data c3Items).getD i ' ' = '█')
    ∧ (∀ i : Nat, i < "abcde".data.length →
        (∀ r ∈ c3Items, ¬ (r.start ≤ (i : Int) ∧ (i : Int) < r.end_)) →
        (applyMockRedactions "abcde".data c3Items).getD i ' ' = "abcde".data.getD i ' ') :=
  applyMockRedactions_roundTrip "abcde".data c3Items (by decide)

/-! ## The review-state sequence (C6) -/

/-- C6: annotate, then reject, then approve on the same candidate id keeps
every annotation added during the sequence in insertion order (neither
decision update alters the annotations) and leaves the decision approved. -/
theorem annotateRejectApprove (st : ReviewState) (id ann : String) (c : ReviewCandidate)
    (h : st id = some c) :
    approveCandidate (rejectCandidate ( handleAddAnnotation st id ann) id) id id
      = some { annotations := c.annotations ++ [ann], decision := Decision.approved } := by
  simp [approveCandidate, rejectCandidate, handleAddAnnotation, h]

/-- Witness for C6 on a concrete review state. -/
theorem annotateRejectApprove_witness :
    approveCandidate (rejectCandidate ( handleAddAnnotation c6State "c1" "second") "c1") "c1" "c1"
      = some { annotations := ["first", "second"], decision := Decision.approved } :=
  annotateRejectApprove c6State "c1" "second"
    { annotations := ["first"], decision := Decision.pending } (by simp [c6State])

/-! ## The PDF page loop (C7) -/

/-- Folding the page loop from any accumulator prepends the accumulator. -/
theorem pdfPagesText_foldl (pages : List (Option (List (List Char)))) :
    ∀ acc : List Char,
      pages.foldl (fun acc p => acc ++ pageContribution p) acc = acc ++ pdfPagesText pages := by
  induction pages with
  | nil => intro acc; simp [pdfPagesText]
  | cons p pages ih =>
    intro acc
    show pages.foldl _ (acc ++ pageContribution p) = acc ++ pdfPagesText (p :: pages)
    rw [ih (acc ++ pageContribution p)]
    have hp : pdfPagesText (p :: pages) = pageContribution p ++ pdfPagesText pages := by
      show pages.foldl _ ([] ++ pageContribution p) = _
      rw [ih ([] ++ pageContribution p)]
      simp
    rw [hp, List.append_assoc]

/-- The page loop distributes over concatenation of page lists. -/
theorem pdfPagesText_append (ps1 ps2 : List (Option (List (List Char)))) :
    pdfPagesText (ps1 ++ ps2) = pdfPagesText ps1 ++ pdfPagesText ps2 := by
  unfold pdfPagesText
  rw [List.foldl_append]
  rw [show List.foldl (fun acc p => acc ++ pageContribution p) [] ps1 = pdfPagesText ps1 from rfl]
  exact pdfPagesText_foldl ps2 (pdfPagesText ps1)

/-- C7: a document with one failing page still processes successfully —
the failing page contributes no text, the other pages' contributions are
kept in order, and no whole-document extraction failure is raised. -/
theorem processDocumentPDF_pageFailure (ps1 ps2 : List (Option (List (List Char)))) :
    processDocumentPDF (PDFLoad.loaded (ps1 ++ none :: ps2))
      = Except.ok (documentOf (listTrim (pdfPagesText ps1 ++ pdfPagesText ps2)))
    ∧ pdfPagesText (ps1 ++ none :: ps2) = pdfPagesText ps1 ++ pdfPagesText ps2 := by
  have hsplit : pdfPagesText (ps1 ++ none :: ps2) = pdfPagesText ps1 ++ pdfPagesText ps2 := by
    rw [pdfPagesText_append]
    congr 1
  refine ⟨?_, hsplit⟩
  simp [processDocumentPDF, processPDFModel, hsplit]

/-! ## Structure of the promoted candidate list -/

/-- Indexed map preserves length. -/
theorem mapWithIndex_length (f : Nat → α → β) :
    ∀ (i : Nat) (l : List α), (mapWithIndex f i l).length = l.length := by
  intro i l
  induction l generalizing i with
  | nil => rfl
  | cons a l ih => simp [mapWithIndex, ih]

/-- Every element of an indexed map is the image of a list element. -/
theorem mem_mapWithIndex (f : Nat → α → β) :
    ∀ (i : Nat) (l : List α) (b : β), b ∈ mapWithIndex f i l → ∃ j a, a ∈ l ∧ b = f j a := by
  intro i l
  induction l generalizing i with
  | nil => intro b hb; simp [mapWithIndex] at hb
  | cons a l ih =>
    intro b hb
    rcases hb with _ | ⟨_, hb⟩
    · exact ⟨i, a, List.mem_cons_self a l, rfl⟩
    · obtain ⟨j, a2, ha2, rfl⟩ := ih (i + 1) b hb
      exact ⟨j, a2, List.mem_cons_of_mem a ha2, rfl⟩

/-- Indexed map splits over append, continuing the index. -/
theorem mapWithIndex_append (f : Nat → α → β) :
    ∀ (l1 l2 : List α) (i : Nat),
      mapWithIndex f i (l1 ++ l2) = mapWithIndex f i l1 ++ mapWithIndex f (i + l1.length) l2 := by
  intro l1
  induction l1 with
  | nil => intro l2 i; simp [mapWithIndex]
  | cons a l1 ih =>
    intro l2 i
    show f i a :: mapWithIndex f (i + 1) (l1 ++ l2)
      = f i a :: (mapWithIndex f (i + 1) l1 ++ mapWithIndex f (i + (l1.length + 1)) l2)
    rw [ih l2 (i + 1)]
    have h2 : i + (l1.length + 1) = i + 1 + l1.length := by omega
    rw [h2]

/-- Indexed map sends a pairwise relation to one on the images whenever the
image relation does not depend on the indices. -/
theorem pairwise_mapWithIndex {R : α → α → Prop} {S : β → β → Prop} (f : Nat → α → β)
    (hf : ∀ j1 j2 a b, R a b → S (f j1 a) (f j2 b)) :
    ∀ (i : Nat) (l : List α), List.Pairwise R l → List.Pairwise S (mapWithIndex f i l) := by
  intro i l
  induction l generalizing i with
  | nil => intro _; exact List.Pairwise.nil
  | cons a l ih =>
    intro hp
    rcases hp with _ | ⟨ha, hl⟩
    refine List.Pairwise.cons ?_ (ih (i + 1) hl)
    intro b hb
    obtain ⟨j, a2, ha2, rfl⟩ := mem_mapWithIndex f (i + 1) l b hb
    exact hf i j a a2 (ha a2 ha2)

/-- A pointwise-stronger boolean predicate filters to a list at least as
long. -/
theorem length_filter_mono (p q : α → Bool) (h : ∀ a, q a = true → p a = true) :
    ∀ l : List α, (l.filter q).length ≤ (l.filter p).length := by
  intro l
  induction l with
  | nil => simp
  | cons a l ih =>
    by_cases hq : q a = true
    · simp [List.filter_cons, hq, h a hq]
      omega
    · by_cases hp : p a = true
      · simp [List.filter_cons, hq, hp]
        omega
      · simp [List.filter_cons, hq, hp]
        exact ih

/-- Every promoted redaction comes from a surviving entity. -/
theorem mem_redactions (doc : ProcessedDocument) (opts : AIDetectionOptions)
    (r : RedactionItem) (h : r ∈ (detectSensitiveData doc opts).redactions) :
    ∃ j e, e ∈ doc.entities ∧ entityFilter opts e = true ∧ r = promoteEntity j e := by
  obtain ⟨j, e, he, rfl⟩ :=
    mem_mapWithIndex promoteEntity 0 (doc.entities.filter (entityFilter opts)) r h
  exact ⟨j, e, (List.mem_filter.mp he).1, (List.mem_filter.mp he).2, rfl⟩

/-- The filter admits only the EMAIL and PHONE families. -/
theorem entityFilter_type (opts : AIDetectionOptions) (e : Entity)
    (h : entityFilter opts e = true) : e.type = "EMAIL" ∨ e.type = "PHONE" := by
  unfold entityFilter at h
  split at h
  · exact absurd h (by simp)
  · split at h
    · rename_i hc
      left
      have := (Bool.and_eq_true _ _).mp hc
      exact beq_iff_eq.mp this.1
    · split at h
      · rename_i hc
        right
        have := (Bool.and_eq_true _ _).mp hc
        exact beq_iff_eq.mp this.1
      · exact absurd h (by simp)

/-- Raising sensitivity raises the threshold, so survival at the higher
sensitivity implies survival at the lower one. -/
theorem entityFilter_mono (o o2 : AIDetectionOptions) (e : Entity)
    (hPII : o.redactPII = o2.redactPII) (hs : o.sensitivityLevel ≤ o2.sensitivityLevel)
    (h : entityFilter o2 e = true) : entityFilter o e = true := by
  have hth : confidenceThreshold o.sensitivityLevel ≤ confidenceThreshold o2.sensitivityLevel := by
    unfold confidenceThreshold
    linarith
  unfold entityFilter at h ⊢
  by_cases h1 : e.confidence < confidenceThreshold o2.sensitivityLevel
  · simp [h1] at h
  · have h2 : ¬ e.confidence < confidenceThreshold o.sensitivityLevel := by
      push_neg at h1 ⊢
      linarith
    rw [if_neg h1] at h
    rw [if_neg h2, hPII]
    exact h

/-! ## Concrete pipeline evaluations -/

/-- Entities of the single-email text. -/
theorem emailOnly_entities :
    extractEntities emailOnlyText = [entityOfMatch emailOnlyText "EMAIL" (0, 7)] := rfl

/-- Entities of the Scenario A text: the email at offsets 14..21 and the
phone at offsets 25..37. -/
theorem scenarioA_entities :
    extractEntities scenarioAText =
      [entityOfMatch scenarioAText "EMAIL" (14, 7),
       entityOfMatch scenarioAText "PHONE" (25, 12)] := rfl

/-- Entities of the phone-before-email text: the email pass pushes first
even though the phone occurs earlier in the text. -/
theorem phoneFirst_entities :
    extractEntities phoneFirstText =
      [entityOfMatch phoneFirstText "EMAIL" (13, 7),
       entityOfMatch phoneFirstText "PHONE" (0, 12)] := rfl

/-- Entities of the URL-only text. -/
theorem urlOnly_entities :
    extractEntities urlOnlyText = [entityOfMatch urlOnlyText "URL" (6, 12)] := rfl

/-- A 0.95-confidence span survives the threshold at sensitivity 50. -/
theorem threshold50_keeps_95 : ¬ ((0.95 : ℚ) < confidenceThreshold 50) := by
  norm_num [confidenceThreshold]

/-- A 0.95-confidence span fails the threshold at sensitivity 100. -/
theorem threshold100_drops_95 : (0.95 : ℚ) < confidenceThreshold 100 := by
  norm_num [confidenceThreshold]

/-- The fixed 0.95 confidence is at or above the 0.8 review bar. -/
theorem conf95_no_review : ¬ ((0.95 : ℚ) < 0.8) := by norm_num

/-- The filter keeps a baseline EMAIL or PHONE span at sensitivity 50 with
PII enabled. -/
theorem entityFilter_default_keeps (text : List Char) (ty : String) (p : Nat × Nat)
    (hty : ty = "EMAIL" ∨ ty = "PHONE") :
    entityFilter defaultOptions (entityOfMatch text ty p) = true := by
  unfold entityFilter
  have h1 : ¬ ((entityOfMatch text ty p).confidence
      < confidenceThreshold defaultOptions.sensitivityLevel) := threshold50_keeps_95
  rw [if_neg h1]
  rcases hty with h | h <;> subst h <;> simp [entityOfMatch, defaultOptions]

/-- The filter drops every baseline span at sensitivity 100. -/
theorem entityFilter_max_drops (text : List Char) (ty : String) (p : Nat × Nat) :
    entityFilter maxOptions (entityOfMatch text ty p) = false := by
  unfold entityFilter
  have h1 : (entityOfMatch text ty p).confidence
      < confidenceThreshold maxOptions.sensitivityLevel := threshold100_drops_95
  rw [if_pos h1]

/-- The default run on the single-email text promotes exactly the email. -/
theorem emailOnly_redactions :
    (detectSensitiveData (documentOf emailOnlyText) defaultOptions).redactions
      = [promoteEntity 0 (entityOfMatch emailOnlyText "EMAIL" (0, 7))] := by
  show mapWithIndex promoteEntity 0
      ((extractEntities emailOnlyText).filter (entityFilter defaultOptions)) = _
  rw [emailOnly_entities]
  simp only [List.filter_cons, List.filter_nil,
    entityFilter_default_keeps emailOnlyText "EMAIL" (0, 7) (Or.inl rfl), if_true]
  rfl

/-- The sensitivity-100 run on the single-email text promotes nothing. -/
theorem emailOnly_redactions_max :
    (detectSensitiveData (documentOf emailOnlyText) maxOptions).redactions = [] := by
  show mapWithIndex promoteEntity 0
      ((extractEntities emailOnlyText).filter (entityFilter maxOptions)) = _
  rw [emailOnly_entities]
  simp only [List.filter_cons, List.filter_nil,
    entityFilter_max_drops emailOnlyText "EMAIL" (0, 7), Bool.false_eq_true, if_false]
  rfl

/-- The Scenario A run promotes exactly the email and the phone, in the
entity-pass order. -/
theorem scenarioA_redactions :
    (detectSensitiveData (documentOf scenarioAText) defaultOptions).redactions
      = [promoteEntity 0 (entityOfMatch scenarioAText "EMAIL" (14, 7)),
         promoteEntity 1 (entityOfMatch scenarioAText "PHONE" (25, 12))] := by
  show mapWithIndex promoteEntity 0
      ((extractEntities scenarioAText).filter (entityFilter defaultOptions)) = _
  rw [scenarioA_entities]
  simp only [List.filter_cons, List.filter_nil,
    entityFilter_default_keeps scenarioAText "EMAIL" (14, 7) (Or.inl rfl),
    entityFilter_default_keeps scenarioAText "PHONE" (25, 12) (Or.inr rfl), if_true]
  rfl

/-- The phone-before-email run promotes the email first, then the phone. -/
theorem phoneFirst_redactions :
    (detectSensitiveData (documentOf phoneFirstText) defaultOptions).redactions
      = [promoteEntity 0 (entityOfMatch phoneFirstText "EMAIL" (13, 7)),
         promoteEntity 1 (entityOfMatch phoneFirstText "PHONE" (0, 12))] := by
  show mapWithIndex promoteEntity 0
      ((extractEntities phoneFirstText).filter (entityFilter defaultOptions)) = _
  rw [phoneFirst_entities]
  simp only [List.filter_cons, List.filter_nil,
    entityFilter_default_keeps phoneFirstText "EMAIL" (13, 7) (Or.inl rfl),
    entityFilter_default_keeps phoneFirstText "PHONE" (0, 12) (Or.inr rfl), if_true]
  rfl

/-- Sensitivity 50 is at most sensitivity 100. -/
theorem fifty_le_hundred : defaultOptions.sensitivityLevel ≤ maxOptions.sensitivityLevel := by
  norm_num [defaultOptions, maxOptions]

/-- C1 counterexample: on a document holding a single 0.95-confidence
email entity, raising sensitivity from 50 to 100 (flags fixed) strictly
decreases the candidate count, and the effective threshold strictly rises
with sensitivity instead of being non-increasing. -/
theorem sensitivity_not_nondecreasing :
    (detectSensitiveData (documentOf emailOnlyText) maxOptions).redactions.length
        < (detectSensitiveData (documentOf emailOnlyText) defaultOptions).redactions.length
    ∧ confidenceThreshold defaultOptions.sensitivityLevel
        < confidenceThreshold maxOptions.sensitivityLevel := by
  constructor
  · rw [emailOnly_redactions_max, emailOnly_redactions]
    simp
  · norm_num [confidenceThreshold, defaultOptions, maxOptions]

/-- C1 amended: the effective threshold is monotone non-decreasing in
sensitivity, so raising `sensitivityLevel` while holding the category
flags fixed never increases the number of candidates. -/
theorem sensitivity_antitone (doc : ProcessedDocument) (o o2 : AIDetectionOptions)
    (hPII : o.redactPII = o2.redactPII) (hFin : o.redactFinancial = o2.redactFinancial)
    (hDates : o.redactDates = o2.redactDates)
    (hs : o.sensitivityLevel ≤ o2.sensitivityLevel) :
    confidenceThreshold o.sensitivityLevel ≤ confidenceThreshold o2.sensitivityLevel
    ∧ (detectSensitiveData doc o2).redactions.length
        ≤ (detectSensitiveData doc o).redactions.length := by
  constructor
  · unfold confidenceThreshold
    linarith
  · show (mapWithIndex promoteEntity 0 (doc.entities.filter (entityFilter o2))).length ≤
      (mapWithIndex promoteEntity 0 (doc.entities.filter (entityFilter o))).length
    rw [mapWithIndex_length, mapWithIndex_length]
    exact length_filter_mono (entityFilter o) (entityFilter o2)
      (fun e he => entityFilter_mono o o2 e hPII hs he) doc.entities

/-- Witness for the amended C1 at sensitivity 50 versus 100 on the
Scenario A document. -/
theorem sensitivity_antitone_witness :
    confidenceThreshold defaultOptions.sensitivityLevel
        ≤ confidenceThreshold maxOptions.sensitivityLevel
    ∧ (detectSensitiveData (documentOf scenarioAText) maxOptions).redactions.length
        ≤ (detectSensitiveData (documentOf scenarioAText) defaultOptions).redactions.length :=
  sensitivity_antitone (documentOf scenarioAText) defaultOptions maxOptions rfl rfl rfl
    fifty_le_hundred

/-- C2 counterexample: the promoted candidate built from the 0.95-confidence
email entity carries confidence 95, outside `[0, 1]`. -/
theorem candidate_confidence_above_one :
    ¬ (∀ r ∈ (detectSensitiveData (documentOf emailOnlyText) defaultOptions).redactions,
        0 ≤ r.confidence ∧ r.confidence ≤ 1) := by
  rw [emailOnly_redactions]
  intro h
  have h2 := h _ (List.mem_cons_self _ _)
  simp only [promoteEntity, entityOfMatch] at h2
  norm_num at h2

/-- C2 amended: promotion multiplies the entity confidence by 100, so when
every source entity confidence lies in `[0, 1]` every candidate confidence
lies in `[0, 100]`. -/
theorem candidate_confidence_range (doc : ProcessedDocument) (opts : AIDetectionOptions)
    (hconf : ∀ e ∈ doc.entities, 0 ≤ e.confidence ∧ e.confidence ≤ 1) :
    ∀ r ∈ (detectSensitiveData doc opts).redactions, 0 ≤ r.confidence ∧ r.confidence ≤ 100 := by
  intro r hr
  obtain ⟨j, e, he, _, rfl⟩ := mem_redactions doc opts r hr
  have hce := hconf e he
  show 0 ≤ e.confidence * 100 ∧ e.confidence * 100 ≤ 100
  constructor <;> nlinarith [hce.1, hce.2]

/-- Confidence bounds of the single-email document's entities. -/
theorem emailOnly_conf_bounds :
    ∀ e ∈ (documentOf emailOnlyText).entities, 0 ≤ e.confidence ∧ e.confidence ≤ 1 := by
  intro e he
  rw [show (documentOf emailOnlyText).entities
      = [entityOfMatch emailOnlyText "EMAIL" (0, 7)] from emailOnly_entities] at he
  simp only [List.mem_singleton] at he
  subst he
  constructor <;> norm_num [entityOfMatch]

/-- The email candidate is a member of the single-email run's result. -/
theorem emailOnly_email_mem :
    promoteEntity 0 (entityOfMatch emailOnlyText "EMAIL" (0, 7))
      ∈ (detectSensitiveData (documentOf emailOnlyText) defaultOptions).redactions := by
  rw [emailOnly_redactions]
  exact List.mem_cons_self _ _

/-- Witness for the amended C2: the email candidate of the single-email
run has confidence within `[0, 100]`. -/
theorem candidate_confidence_range_witness :
    0 ≤ (promoteEntity 0 (entityOfMatch emailOnlyText "EMAIL" (0, 7))).confidence
    ∧ (promoteEntity 0 (entityOfMatch emailOnlyText "EMAIL" (0, 7))).confidence ≤ 100 :=
  candidate_confidence_range (documentOf emailOnlyText) defaultOptions emailOnly_conf_bounds
    (promoteEntity 0 (entityOfMatch emailOnlyText "EMAIL" (0, 7))) emailOnly_email_mem

/-- C10: the filter of `detectSensitiveData` admits only the EMAIL and
PHONE families, so no candidate of any run — whatever the document and
options — is a URL span. -/
theorem url_never_promoted (doc : ProcessedDocument) (opts : AIDetectionOptions)
    (r : RedactionItem) (hr : r ∈ (detectSensitiveData doc opts).redactions) :
    (r.type = "EMAIL" ∨ r.type = "PHONE") ∧ r.type ≠ "URL" := by
  obtain ⟨j, e, _, hf, rfl⟩ := mem_redactions doc opts r hr
  have ht := entityFilter_type opts e hf
  show (e.type = "EMAIL" ∨ e.type = "PHONE") ∧ e.type ≠ "URL"
  refine ⟨ht, ?_⟩
  rcases ht with h | h <;> simp [h]

/-- The email candidate is a member of the Scenario A run's result. -/
theorem scenarioA_email_mem :
    promoteEntity 0 (entityOfMatch scenarioAText "EMAIL" (14, 7))
      ∈ (detectSensitiveData (documentOf scenarioAText) defaultOptions).redactions := by
  rw [scenarioA_redactions]
  exact List.mem_cons_self _ _

/-- Witness for C10: the email candidate of the Scenario A run. -/
theorem url_never_promoted_witness :
    ((promoteEntity 0 (entityOfMatch scenarioAText "EMAIL" (14, 7))).type = "EMAIL"
      ∨ (promoteEntity 0 (entityOfMatch scenarioAText "EMAIL" (14, 7))).type = "PHONE")
    ∧ (promoteEntity 0 (entityOfMatch scenarioAText "EMAIL" (14, 7))).type ≠ "URL" :=
  url_never_promoted (documentOf scenarioAText) defaultOptions
    (promoteEntity 0 (entityOfMatch scenarioAText "EMAIL" (14, 7))) scenarioA_email_mem

/-- The Scenario A run's redacted text: both spans stamped, the rest
untouched. -/
theorem scenarioA_redactedText :
    (detectSensitiveData (documentOf scenarioAText) defaultOptions).redactedText
      = "Contact me at ███████ or ████████████.".data := by
  show applyMockRedactions scenarioAText
      (mapWithIndex promoteEntity 0
        ((extractEntities scenarioAText).filter (entityFilter defaultOptions))) = _
  rw [show mapWithIndex promoteEntity 0
        ((extractEntities scenarioAText).filter (entityFilter defaultOptions))
      = [promoteEntity 0 (entityOfMatch scenarioAText "EMAIL" (14, 7)),
         promoteEntity 1 (entityOfMatch scenarioAText "PHONE" (25, 12))]
    from scenarioA_redactions]
  rfl

/-- C4: the pipeline on Scenario A's text with all categories enabled and
sensitivity 50 yields exactly two candidates — the EMAIL at 14..21 and the
PHONE at 25..37, both with `needsReview = false` — and the redacted text
replaces exactly those two ranges with block characters. -/
theorem scenarioA_pipeline :
    ((detectSensitiveData (documentOf scenarioAText) defaultOptions).redactions.map
        (fun r => (r.type, r.needsReview, r.start, r.end_))
      = [("EMAIL", false, 14, 21), ("PHONE", false, 25, 37)])
    ∧ (detectSensitiveData (documentOf scenarioAText) defaultOptions).redactedText
      = "Contact me at ███████ or ████████████.".data := by
  refine ⟨?_, scenarioA_redactedText⟩
  rw [scenarioA_redactions]
  have hnr : decide ((0.95 : ℚ) < 0.8) = false := decide_eq_false conf95_no_review
  simp [promoteEntity, entityOfMatch, hnr]

/-! ## Bounds of the three matchers: a match is non-empty and stays inside
the suffix it was found in. -/

/-- A run is no longer than its list. -/
theorem runLen_le (p : Char → Bool) (cs : List Char) : runLen p cs ≤ cs.length :=
  (cs.takeWhile_sublist p).length_le

/-- Bounds for the domain/dot/letters search: a successful result consumes
at least one character and at most the whole suffix after the `@`. -/
theorem emailDomGo_bounds :
    ∀ (rest : List Char) (j d : Nat), emailDomGo rest j = some d → 1 ≤ d ∧ d ≤ rest.length := by
  intro rest j
  induction j with
  | zero => intro d h; simp [emailDomGo] at h
  | succ j ih =>
    intro d h
    simp only [emailDomGo] at h
    split at h
    · rename_i hcond
      simp only [Bool.and_eq_true, beq_iff_eq, decide_eq_true_eq] at hcond
      have hj : j + 1 < rest.length := by
        by_contra hge
        push_neg at hge
        rw [List.getD_eq_default _ _ hge] at hcond
        simp at hcond
      have ht : runLen Char.isAlpha (rest.drop (j + 2)) ≤ rest.length - (j + 2) := by
        have := runLen_le Char.isAlpha (rest.drop (j + 2))
        simpa [List.length_drop] using this
      simp only [Option.some.injEq] at h
      omega
    · exact ih d h

/-- Bounds for the email matcher. -/
theorem emailMatchAt_bounds :
    ∀ (cs : List Char) (n : Nat), emailMatchAt cs = some n → 1 ≤ n ∧ n ≤ cs.length := by
  intro cs n h
  simp only [emailMatchAt] at h
  split at h
  · exact absurd h (by simp)
  · split at h
    · rename_i rest heq
      split at h
      · rename_i d hdom
        have hb := emailDomGo_bounds rest _ d hdom
        have hk : runLen isEmailLocalChar cs ≤ cs.length := runLen_le _ _
        have hlen : cs.length - runLen isEmailLocalChar cs = rest.length + 1 := by
          have h2 := congrArg List.length heq
          simpa [List.length_drop] using h2
        simp only [Option.some.injEq] at h
        omega
      · exact absurd h (by simp)
    · exact absurd h (by simp)

/-- Consuming `n` digits shortens the suffix by exactly `n`. -/
theorem dropDigits_length :
    ∀ (n : Nat) (cs r : List Char), dropDigits n cs = some r → cs.length = n + r.length := by
  intro n
  induction n with
  | zero =>
    intro cs r h
    simp only [dropDigits, Option.some.injEq] at h
    subst h
    omega
  | succ n ih =>
    intro cs r h
    cases cs with
    | nil => simp [dropDigits] at h
    | cons c rest =>
      simp only [dropDigits] at h
      split at h
      · have := ih rest r h
        simp only [List.length_cons]
        omega
      · exact absurd h (by simp)

/-- Bounds for a greedy optional character, given bounds for its
continuation. -/
theorem optC_bounds (p : Char → Bool) (k : List Char → Option Nat) (lo : Nat)
    (hk : ∀ cs n, k cs = some n → lo ≤ n ∧ n ≤ cs.length) :
    ∀ (cs : List Char) (n : Nat), optC p cs k = some n → lo ≤ n ∧ n ≤ cs.length := by
  intro cs n h
  unfold optC at h
  split at h
  · rename_i c rest
    split at h
    · cases hkr : k rest with
      | some m =>
        simp only [hkr, Option.some.injEq] at h
        have := hk rest m hkr
        simp only [List.length_cons]
        omega
      | none =>
        simp only [hkr] at h
        exact hk _ n h
    · exact hk _ n h
  · exact hk [] n h

/-- Bounds for the phone tail `[-.]?\d{4}`. -/
theorem phoneLast_bounds :
    ∀ (cs : List Char) (n : Nat), phoneLast cs = some n → 4 ≤ n ∧ n ≤ cs.length := by
  intro cs n h
  unfold phoneLast at h
  refine optC_bounds isSepChar _ 4 ?_ cs n h
  intro cs2 m hm
  cases hd : dropDigits 4 cs2 with
  | none => simp [hd] at hm
  | some r =>
    simp only [hd, Option.map_some', Option.some.injEq] at hm
    have := dropDigits_length 4 cs2 r hd
    omega

/-- Bounds for the phone tail `[-.]?\d{3}[-.]?\d{4}`. -/
theorem phoneMid_bounds :
    ∀ (cs : List Char) (n : Nat), phoneMid cs = some n → 7 ≤ n ∧ n ≤ cs.length := by
  intro cs n h
  unfold phoneMid at h
  refine optC_bounds isSepChar _ 7 ?_ cs n h
  intro cs2 m hm
  cases hd : dropDigits 3 cs2 with
  | none => simp [hd] at hm
  | some cs3 =>
    simp only [hd] at hm
    cases hl : phoneLast cs3 with
    | none => simp [hl] at hm
    | some v =>
      simp only [hl, Option.map_some', Option.some.injEq] at hm
      have h1 := phoneLast_bounds cs3 v hl
      have h2 := dropDigits_length 3 cs2 cs3 hd
      omega

/-- Bounds for the phone core. -/
theorem phoneMain_bounds :
    ∀ (cs : List Char) (n : Nat), phoneMain cs = some n → 10 ≤ n ∧ n ≤ cs.length := by
  intro cs n h
  unfold phoneMain at h
  refine optC_bounds _ _ 10 ?_ cs n h
  intro cs1 m hm
  cases hd : dropDigits 3 cs1 with
  | none => simp [hd] at hm
  | some cs2 =>
    simp only [hd] at hm
    cases ho : optC (fun c => c == ')') cs2 phoneMid with
    | none => simp [ho] at hm
    | some v =>
      simp only [ho, Option.map_some', Option.some.injEq] at hm
      have h1 := optC_bounds _ phoneMid 7 phoneMid_bounds cs2 v ho
      have h2 := dropDigits_length 3 cs1 cs2 hd
      omega

/-- Bounds for one digit-count alternative of the leading `+` group. -/
theorem phonePlusDigits_bounds :
    ∀ (r : List Char) (q n : Nat), phonePlusDigits r q = some n → 1 ≤ n ∧ n ≤ r.length := by
  intro r q n h
  unfold phonePlusDigits at h
  cases hd : dropDigits q r with
  | none => simp [hd] at h
  | some rq =>
    simp only [hd] at h
    cases ho : optC isSepChar rq phoneMain with
    | none => simp [ho] at h
    | some v =>
      simp only [ho, Option.map_some', Option.some.injEq] at h
      have h1 := optC_bounds isSepChar phoneMain 10 phoneMain_bounds rq v ho
      have h2 := dropDigits_length q r rq hd
      omega

/-- Bounds for the phone matcher. -/
theorem phoneMatchAt_bounds :
    ∀ (cs : List Char) (n : Nat), phoneMatchAt cs = some n → 1 ≤ n ∧ n ≤ cs.length := by
  intro cs n h
  simp only [phoneMatchAt] at h
  split at h
  · rename_i r
    cases h3 : phonePlusDigits r 3 with
    | some v =>
      simp only [h3, Option.some.injEq] at h
      have := phonePlusDigits_bounds r 3 v h3
      simp only [List.length_cons]
      omega
    | none =>
      simp only [h3] at h
      cases h2 : phonePlusDigits r 2 with
      | some v =>
        simp only [h2, Option.some.injEq] at h
        have := phonePlusDigits_bounds r 2 v h2
        simp only [List.length_cons]
        omega
      | none =>
        simp only [h2] at h
        cases h1 : phonePlusDigits r 1 with
        | some v =>
          simp only [h1, Option.some.injEq] at h
          have := phonePlusDigits_bounds r 1 v h1
          simp only [List.length_cons]
          omega
        | none =>
          simp only [h1] at h
          have := phoneMain_bounds _ n h
          exact ⟨by omega, this.2⟩
  · have := phoneMain_bounds cs n h
    exact ⟨by omega, this.2⟩

/-- Bounds for the URL tail. -/
theorem urlTail_bounds :
    ∀ (cs : List Char) (n : Nat), urlTail cs = some n → 1 ≤ n ∧ n ≤ cs.length := by
  intro cs n h
  simp only [urlTail] at h
  split at h
  · split at h
    · exact absurd h (by simp)
    · rename_i cs3 ht0
      simp only [Option.some.injEq] at h
      have := runLen_le (fun c => !c.isWhitespace) cs3
      simp only [List.length_cons]
      omega
  · exact absurd h (by simp)

/-- Bounds for the URL matcher. -/
theorem urlMatchAt_bounds :
    ∀ (cs : List Char) (n : Nat), urlMatchAt cs = some n → 1 ≤ n ∧ n ≤ cs.length := by
  intro cs n h
  simp only [urlMatchAt] at h
  split at h
  · rename_i rest
    cases ho : optC (fun c => c == 's') rest urlTail with
    | none => simp [ho] at h
    | some v =>
      simp only [ho, Option.some.injEq] at h
      have := optC_bounds _ urlTail 1 urlTail_bounds rest v ho
      simp only [List.length_cons]
      omega
  · exact absurd h (by simp)

/-! ## Properties of the scan loop -/

/-- Every pair the scan loop emits records a position at or past the
current index together with a match of the matcher at exactly that
position of the scanned suffix. -/
theorem scanGo_mem (m : List Char → Option Nat) :
    ∀ (fuel : Nat) (cs : List Char) (i : Nat) (q : Nat × Nat), q ∈ scanGo m fuel cs i →
      i ≤ q.1 ∧ m (cs.drop (q.1 - i)) = some q.2 := by
  intro fuel
  induction fuel with
  | zero => intro cs i q hq; simp [scanGo] at hq
  | succ fuel ih =>
    intro cs i q hq
    cases cs with
    | nil => simp [scanGo] at hq
    | cons c rest =>
      rw [scanGo] at hq
      cases hm : m (c :: rest) with
      | some n =>
        rw [hm] at hq
        rcases List.mem_cons.mp hq with hq | hq
        · subst hq
          simpa using hm
        · obtain ⟨h1, h2⟩ := ih _ _ q hq
          refine ⟨by omega, ?_⟩
          rw [List.drop_drop] at h2
          have h3 : max n 1 + (q.1 - (i + max n 1)) = q.1 - i := by omega
          rwa [h3] at h2
      | none =>
        rw [hm] at hq
        obtain ⟨h1, h2⟩ := ih rest (i + 1) q hq
        refine ⟨by omega, ?_⟩
        have h3 : q.1 - i = (q.1 - (i + 1)) + 1 := by omega
        rw [h3, List.drop_succ_cons]
        exact h2

/-- The scan loop emits strictly increasing match positions. -/
theorem scanGo_pairwise (m : List Char → Option Nat) :
    ∀ (fuel : Nat) (cs : List Char) (i : Nat),
      List.Pairwise (fun a b => a.1 < b.1) (scanGo m fuel cs i) := by
  intro fuel
  induction fuel with
  | zero => intro cs i; simp [scanGo]
  | succ fuel ih =>
    intro cs i
    cases cs with
    | nil => simp [scanGo]
    | cons c rest =>
      rw [scanGo]
      cases hm : m (c :: rest) with
      | some n =>
        refine List.Pairwise.cons ?_ (ih _ _)
        intro q hq
        have h1 := (scanGo_mem m fuel _ _ q hq).1
        have h2 : 1 ≤ max n 1 := Nat.le_max_right n 1
        show i < q.1
        omega
      | none => exact ih rest (i + 1)

/-- Every emitted match of a full scan is a match of the matcher at its
recorded position. -/
theorem scanMatches_spec (m : List Char → Option Nat) (text : List Char) (q : Nat × Nat)
    (hq : q ∈ scanMatches m text) : m (text.drop q.1) = some q.2 := by
  have h := scanGo_mem m text.length text 0 q hq
  simpa using h.2

/-- Full scans emit strictly increasing match positions. -/
theorem scanMatches_pairwise (m : List Char → Option Nat) (text : List Char) :
    List.Pairwise (fun a b => a.1 < b.1) (scanMatches m text) :=
  scanGo_pairwise m text.length text 0

/-- Offsets recorded by a scan with a bounded matcher are well-formed:
positive extent, inside the text. -/
theorem scanMatches_bounds (m : List Char → Option Nat)
    (hm : ∀ cs n, m cs = some n → 1 ≤ n ∧ n ≤ cs.length)
    (text : List Char) (q : Nat × Nat) (hq : q ∈ scanMatches m text) :
    1 ≤ q.2 ∧ q.1 + q.2 ≤ text.length := by
  have h1 := scanMatches_spec m text q hq
  have h2 := hm _ _ h1
  have h3 : (text.drop q.1).length = text.length - q.1 := List.length_drop _ _
  omega

/-- Spans of one detector pass: the recorded text is the exact slice of
the document text, the offsets are well-formed, and the family type and
confidence are the fixed ones. -/
theorem entityPass_spec (m : List Char → Option Nat)
    (hm : ∀ cs n, m cs = some n → 1 ≤ n ∧ n ≤ cs.length)
    (text : List Char) (ty : String) (e : Entity)
    (he : e ∈ (scanMatches m text).map (entityOfMatch text ty)) :
    e.text = (text.drop e.start).take (e.end_ - e.start)
    ∧ e.start < e.end_ ∧ e.end_ ≤ text.length
    ∧ e.type = ty ∧ e.confidence = 0.95 := by
  obtain ⟨q, hq, rfl⟩ := List.mem_map.mp he
  obtain ⟨h1, h2⟩ := scanMatches_bounds m hm text q hq
  refine ⟨?_, ?_, ?_, rfl, rfl⟩
  · show (text.drop q.1).take q.2 = (text.drop q.1).take (q.1 + q.2 - q.1)
    congr 1
    omega
  · show q.1 < q.1 + q.2
    omega
  · exact h2

/-- C8: every span the baseline detector emits satisfies
`text[start:end] == span.text` exactly, with `0 ≤ start < end ≤ len(text)`. -/
theorem extractEntities_spans (text : List Char) (e : Entity)
    (he : e ∈ extractEntities text) :
    e.text = (text.drop e.start).take (e.end_ - e.start)
    ∧ e.start < e.end_ ∧ e.end_ ≤ text.length := by
  rcases List.mem_append.mp he with h | h
  · rcases List.mem_append.mp h with h2 | h2
    · have := entityPass_spec emailMatchAt emailMatchAt_bounds text "EMAIL" e h2
      exact ⟨this.1, this.2.1, this.2.2.1⟩
    · have := entityPass_spec phoneMatchAt phoneMatchAt_bounds text "PHONE" e h2
      exact ⟨this.1, this.2.1, this.2.2.1⟩
  · have := entityPass_spec urlMatchAt urlMatchAt_bounds text "URL" e h
    exact ⟨this.1, this.2.1, this.2.2.1⟩

/-- The email span is among the Scenario A text's extracted entities. -/
theorem scenarioA_email_entity_mem :
    entityOfMatch scenarioAText "EMAIL" (14, 7) ∈ extractEntities scenarioAText := by
  rw [scenarioA_entities]
  exact List.mem_cons_self _ _

/-- Witness for C8: the email span of the Scenario A text. -/
theorem extractEntities_spans_witness :
    (entityOfMatch scenarioAText "EMAIL" (14, 7)).text
        = (scenarioAText.drop (entityOfMatch scenarioAText "EMAIL" (14, 7)).start).take
            ((entityOfMatch scenarioAText "EMAIL" (14, 7)).end_
              - (entityOfMatch scenarioAText "EMAIL" (14, 7)).start)
    ∧ (entityOfMatch scenarioAText "EMAIL" (14, 7)).start
        < (entityOfMatch scenarioAText "EMAIL" (14, 7)).end_
    ∧ (entityOfMatch scenarioAText "EMAIL" (14, 7)).end_ ≤ scenarioAText.length :=
  extractEntities_spans scenarioAText (entityOfMatch scenarioAText "EMAIL" (14, 7))
    scenarioA_email_entity_mem

/-! ## Ordering of the candidate list (C5) -/

/-- C5 counterexample: on a text in which a phone number precedes an
email, the run promotes the email (start 13) before the phone (start 0),
so the candidate list is not sorted ascending by start. -/
theorem candidates_not_sorted :
    ¬ sortedByStartThenEnd
        (detectSensitiveData (documentOf phoneFirstText) defaultOptions).redactions := by
  rw [phoneFirst_redactions]
  unfold sortedByStartThenEnd
  intro h
  rcases h with _ | ⟨hrel, _⟩
  have h2 := hrel _ (List.mem_cons_self _ _)
  simp [promoteEntity, entityOfMatch] at h2

/-- One detector pass emits entities with strictly ascending starts. -/
theorem entityPass_pairwise (m : List Char → Option Nat) (text : List Char) (ty : String) :
    List.Pairwise (fun a b => a.start < b.start)
      ((scanMatches m text).map (entityOfMatch text ty)) := by
  rw [List.pairwise_map]
  exact scanMatches_pairwise m text

/-- Promotion preserves strict start order (the promoted start is the cast
of the entity's start, whatever the indices). -/
theorem promoted_pairwise (l : List Entity) (i : Nat)
    (h : List.Pairwise (fun a b => a.start < b.start) l) :
    List.Pairwise (fun a b => a.start < b.start) (mapWithIndex promoteEntity i l) := by
  refine pairwise_mapWithIndex promoteEntity ?_ i l h
  intro j1 j2 a b hab
  show (a.start : Int) < (b.start : Int)
  exact_mod_cast hab

/-- The URL pass never survives the filter, whatever the options. -/
theorem urlEntities_filter_empty (text : List Char) (opts : AIDetectionOptions) :
    (urlEntities text).filter (entityFilter opts) = [] := by
  rw [List.filter_eq_nil_iff]
  intro e he
  obtain ⟨q, hq, rfl⟩ := List.mem_map.mp he
  by_cases hc : (entityOfMatch text "URL" q).confidence
      < confidenceThreshold opts.sensitivityLevel
  · simp [entityFilter, hc]
  · simp [entityFilter, hc, entityOfMatch]

/-- C5 amended: the candidate list is the email-pass survivors followed by
the phone-pass survivors (the promotion index continuing across groups),
each group strictly ascending by start — not one globally start-sorted
list. -/
theorem candidates_grouped_by_pass (text : List Char) (opts : AIDetectionOptions) :
    (detectSensitiveData (documentOf text) opts).redactions
      = mapWithIndex promoteEntity 0 ((emailEntities text).filter (entityFilter opts))
        ++ mapWithIndex promoteEntity
            (((emailEntities text).filter (entityFilter opts)).length)
            ((phoneEntities text).filter (entityFilter opts))
    ∧ List.Pairwise (fun a b => a.start < b.start)
        (mapWithIndex promoteEntity 0 ((emailEntities text).filter (entityFilter opts)))
    ∧ List.Pairwise (fun a b => a.start < b.start)
        (mapWithIndex promoteEntity
          (((emailEntities text).filter (entityFilter opts)).length)
          ((phoneEntities text).filter (entityFilter opts))) := by
  refine ⟨?_, ?_, ?_⟩
  · show mapWithIndex promoteEntity 0
        ((emailEntities text ++ phoneEntities text ++ urlEntities text).filter
          (entityFilter opts)) = _
    rw [List.filter_append, List.filter_append, urlEntities_filter_empty,
      List.append_nil, mapWithIndex_append]
    simp
  · exact promoted_pairwise _ 0
      (List.Pairwise.sublist (List.filter_sublist _) (entityPass_pairwise _ text "EMAIL"))
  · exact promoted_pairwise _ _
      (List.Pairwise.sublist (List.filter_sublist _) (entityPass_pairwise _ text "PHONE"))

end Redactly
